import Mathlib

/-!
Shallow embedding of `resque-autoscaler` (`src/main.go`).

The program is a closed-loop autoscaler: it samples the number of unfinished
resque jobs from redis, smooths the samples over a trailing window, converts
the window average into a desired instance count (clamped to configured
bounds, hysteresis-gated by the time of the last emitted scaling decision),
and posts resize requests to the Render fleet API.

Modelling choices:
- Go `int` values (instance counts, job counts, samples) are modelled as `ℤ`.
- `time.Time` instants and `time.Duration` values are modelled as `ℤ`
  (nanosecond ticks); `t.Add(d)` is `t + d` and `now.After(u)` is `u < now`
  (a strict comparison, as in the Go standard library).
- `float64` arithmetic in `average` and `math.Ceil` is modelled as exact
  rational arithmetic over `ℚ` with `Int.ceil`.
- External collaborators (redis, the Render HTTP API) are modelled by
  explicit result values describing what each query returned.
-/

namespace ResqueAutoscaler

/-- Embeds `AutoscalerConfig` (main.go lines 19-30): the scaling-relevant
configuration fields. The three string-valued credential/address fields play
no role in the decision logic and are omitted from the model. -/
structure AutoscalerConfig where
  minInstances : ℤ
  maxInstances : ℤ
  workersPerInstance : ℤ
  interval : ℤ
  numSamples : ℤ
  scaleUpDelay : ℤ
  scaleDownDelay : ℤ
deriving Repr, DecidableEq

/-- Embeds the mutable fields of the `Autoscaler` singleton
(main.go lines 32-39): `instances`, `lastScaleTime` and the `samples`
window. The redis client and context are collaborator handles, not state. -/
structure Autoscaler where
  instances : ℤ
  lastScaleTime : ℤ
  samples : List ℤ
deriving Repr, DecidableEq

/-- Embeds `average` (main.go lines 152-158): the sum of the samples divided
by their number, as exact division in `ℚ` (the Go code divides `float64`s). -/
def average (xs : List ℤ) : ℚ :=
  (xs.sum : ℚ) / (xs.length : ℚ)

/-- Embeds main.go line 130:
`int(math.Ceil(avgNumJobs / float64(workersPerInstance)))`,
the pre-clamp desired instance count. -/
def rawDesired (cfg : AutoscalerConfig) (w : List ℤ) : ℤ :=
  ⌈average w / (cfg.workersPerInstance : ℚ)⌉

/-- Embeds main.go lines 130-136: the raw desired count clamped first to
`maxInstances`, then to `minInstances`, in exactly the source's order. -/
def desiredInstances (cfg : AutoscalerConfig) (w : List ℤ) : ℤ :=
  if (if rawDesired cfg w > cfg.maxInstances then cfg.maxInstances else rawDesired cfg w)
      < cfg.minInstances then
    cfg.minInstances
  else
    (if rawDesired cfg w > cfg.maxInstances then cfg.maxInstances else rawDesired cfg w)

/-- Embeds the window update of `calculateDesiredInstances`
(main.go lines 118-127): append the new sample; if the window is still
shorter than `numSamples`, report not-ready (the Go code returns early,
keeping the appended window); otherwise evict the oldest entry when the
window overflows, and report ready. -/
def smootherPush (numSamples : ℤ) (window : List ℤ) (x : ℤ) : List ℤ × Bool :=
  if ((window ++ [x]).length : ℤ) < numSamples then (window ++ [x], false)
  else if ((window ++ [x]).length : ℤ) > numSamples then ((window ++ [x]).tail, true)
  else (window ++ [x], true)

/-- Embeds `calculateDesiredInstances` (main.go lines 116-150). The sampled
job count `jobs` and the current time `now` are passed in explicitly; the
result is the returned instance count together with the autoscaler state
with its updated `samples` window (the only field this function mutates).
The hysteresis tests use `time.Time.After`, a strict comparison. -/
def calculateDesiredInstances (cfg : AutoscalerConfig) (a : Autoscaler)
    (jobs now : ℤ) : ℤ × Autoscaler :=
  if (smootherPush cfg.numSamples a.samples jobs).2 = false then
    (a.instances, { a with samples := (smootherPush cfg.numSamples a.samples jobs).1 })
  else if desiredInstances cfg (smootherPush cfg.numSamples a.samples jobs).1 > a.instances ∧
      a.lastScaleTime + cfg.scaleUpDelay < now then
    (desiredInstances cfg (smootherPush cfg.numSamples a.samples jobs).1,
      { a with samples := (smootherPush cfg.numSamples a.samples jobs).1 })
  else if desiredInstances cfg (smootherPush cfg.numSamples a.samples jobs).1 < a.instances ∧
      a.lastScaleTime + cfg.scaleDownDelay < now then
    (desiredInstances cfg (smootherPush cfg.numSamples a.samples jobs).1,
      { a with samples := (smootherPush cfg.numSamples a.samples jobs).1 })
  else
    (a.instances, { a with samples := (smootherPush cfg.numSamples a.samples jobs).1 })

/-- Embeds one iteration of `calculateInstancesLoop` (main.go lines 104-114):
run `calculateDesiredInstances`; if the returned count differs from the
current instance count, send it on the channel (modelled as `some n`) and
record the new count and a fresh scale time; otherwise emit nothing.
`now` is the instant read inside `calculateDesiredInstances` (line 138) and
`nowAfter` the instant read at line 110 for `lastScaleTime`. -/
def loopTick (cfg : AutoscalerConfig) (a : Autoscaler)
    (jobs now nowAfter : ℤ) : Autoscaler × Option ℤ :=
  if (calculateDesiredInstances cfg a jobs now).1 ≠ a.instances then
    ({ (calculateDesiredInstances cfg a jobs now).2 with
        instances := (calculateDesiredInstances cfg a jobs now).1,
        lastScaleTime := nowAfter },
      some (calculateDesiredInstances cfg a jobs now).1)
  else
    ((calculateDesiredInstances cfg a jobs now).2, none)

/-- Iterated smoother pushes starting from the empty window created at
startup (main.go line 36: the zero value of the `samples` slice). -/
def pushAll (numSamples : ℤ) (xs : List ℤ) : List ℤ :=
  xs.foldl (fun w x => (smootherPush numSamples w x).1) []

/-- Outcome of `redis.Get` on a worker lease key (main.go line 168):
the key is present (`err == nil`), absent (`err == redis.Nil`), or the
lookup failed with some other error. -/
inductive GetResult where
  | ok
  | nilKey
  | otherError
deriving Repr, DecidableEq

/-- The redis data visible to one sampling tick. `workersRes`/`queuesRes`
are the results of the two `SMembers` calls (`none` = the call failed; the
go-redis client then yields a nil slice, so the loop body runs zero times).
`queueLenRes q = none` models a failed `LLen`, which in Go returns the zero
value `0` alongside the error. -/
structure RedisState where
  workersRes : Option (List String)
  leaseGet : String → GetResult
  queuesRes : Option (List String)
  queueLenRes : String → Option ℕ

/-- Embeds `countActiveJobs` (main.go lines 160-176): iterate over the
worker set, incrementing for every worker whose lease key `Get` succeeds
(`err == nil`); a `redis.Nil` or other error contributes nothing. -/
def countActiveJobs (r : RedisState) : ℤ :=
  (r.workersRes.getD []).foldl
    (fun jobs w => if r.leaseGet w == GetResult.ok then jobs + 1 else jobs) 0

/-- Embeds `countPendingJobs` (main.go lines 178-193): iterate over the
queue set, adding each `LLen` result; a failed `LLen` adds the zero value. -/
def countPendingJobs (r : RedisState) : ℤ :=
  (r.queuesRes.getD []).foldl
    (fun jobs q => jobs + ((r.queueLenRes q).getD 0 : ℤ)) 0

/-- Embeds main.go line 117: the per-tick sample is
`countActiveJobs() + countPendingJobs()`. -/
def sampleJobs (r : RedisState) : ℤ :=
  countActiveJobs r + countPendingJobs r

/-- Spec-side description of the active-job count, for the refinement claim
about the sampler: the number of registered workers whose lease key is
present. -/
def activeWorkersSpec (r : RedisState) : ℕ :=
  (r.workersRes.getD []).countP (fun w => r.leaseGet w == GetResult.ok)

/-- Spec-side description of the pending-job count, for the refinement claim
about the sampler: the sum of the retrievable queue lengths, a failed
lookup contributing zero. -/
def pendingJobsSpec (r : RedisState) : ℤ :=
  ((r.queuesRes.getD []).map (fun q => ((r.queueLenRes q).getD 0 : ℤ))).sum

/-- The result of the startup `GET /services/{id}` call as seen by
`getInstanceCount`: the HTTP status and the parsed
`serviceDetails.numInstances` field (`none` when the field is missing from
the JSON body; `gjson` then reports the number `0`, mirrored by `getD 0`).
The fleet API reports an integral instance count. -/
structure RenderResponse where
  status : ℤ
  numInstances : Option ℤ
deriving Repr, DecidableEq

/-- HTTP status `http.StatusOK`, the success status checked at line 65. -/
def httpStatusOK : ℤ := 200

/-- Embeds `getInstanceCount` (main.go lines 62-74). `callResult = none`
models a transport error from `renderAPICall`; otherwise the status is
checked against `http.StatusOK` and the parsed count is used only when it
is strictly positive, with `minInstances` as the fallback in every other
case. -/
def getInstanceCount (cfg : AutoscalerConfig) (callResult : Option RenderResponse) : ℤ :=
  match callResult with
  | none => cfg.minInstances
  | some resp =>
    if resp.status ≠ httpStatusOK then cfg.minInstances
    else if resp.numInstances.getD 0 > 0 then resp.numInstances.getD 0
    else cfg.minInstances

/-! ### Arithmetic bridge lemmas

`ℚ`-level floors and ceilings of integer quotients, restated through
integer euclidean division so that concrete instances reduce. -/

lemma floor_intCast_div_int (n b : ℤ) (hb : 0 < b) :
    ⌊(n : ℚ) / (b : ℚ)⌋ = n / b := by
  have h1 : (b.toNat : ℤ) = b := Int.toNat_of_nonneg hb.le
  rw [← h1, Int.cast_natCast, Rat.floor_intCast_div_natCast]

lemma ceil_intCast_div_int (n b : ℤ) (hb : 0 < b) :
    ⌈(n : ℚ) / (b : ℚ)⌉ = -(-n / b) := by
  have h2 : ⌈(n : ℚ) / (b : ℚ)⌉ = -⌊-((n : ℚ) / (b : ℚ))⌋ := by
    rw [Int.floor_neg]; ring
  rw [h2, ← neg_div, show -(n : ℚ) = ((-n : ℤ) : ℚ) by push_cast; ring,
    floor_intCast_div_int _ b hb]

lemma average_div_eq (w : List ℤ) (wpi : ℤ) :
    average w / (wpi : ℚ) = (w.sum : ℚ) / (((w.length : ℤ) * wpi : ℤ) : ℚ) := by
  rw [average, div_div]
  push_cast
  ring

lemma rawDesired_eq_ediv (cfg : AutoscalerConfig) (w : List ℤ)
    (h : 0 < cfg.workersPerInstance) :
    rawDesired cfg w = -(-w.sum / ((w.length : ℤ) * cfg.workersPerInstance)) := by
  rw [rawDesired, average_div_eq]
  rcases Nat.eq_zero_or_pos w.length with h0 | h0
  · obtain rfl := List.eq_nil_of_length_eq_zero h0
    simp
  · exact ceil_intCast_div_int _ _ (mul_pos (by exact_mod_cast h0) h)

example : rawDesired ⟨2, 50, 2, 1, 3, 60, 600⟩ [4, 4, 4] = 2 := by
  rw [rawDesired_eq_ediv _ _ (by decide)]; decide

example : smootherPush 3 [4, 4] 4 = ([4, 4, 4], true) := by decide

/-! ### Smoother window lemmas -/

lemma pushAll_append (N : ℤ) (xs : List ℤ) (x : ℤ) :
    pushAll N (xs ++ [x]) = (smootherPush N (pushAll N xs) x).1 := by
  simp [pushAll, List.foldl_append]

lemma pushAll_length (N : ℤ) (hN : 1 ≤ N) (xs : List ℤ) :
    ((pushAll N xs).length : ℤ) = min (xs.length : ℤ) N := by
  induction xs using List.reverseRecOn with
  | nil =>
    simp only [pushAll, List.foldl_nil, List.length_nil, Nat.cast_zero]
    omega
  | append_singleton xs x ih =>
    rw [pushAll_append, smootherPush]
    split_ifs with h1 h2 <;>
      simp only [List.length_append, List.length_tail, List.length_cons,
        List.length_nil] at * <;>
      push_cast at * <;> omega

lemma pushAll_suffix (N : ℤ) (xs : List ℤ) : pushAll N xs <:+ xs := by
  induction xs using List.reverseRecOn with
  | nil => simp [pushAll]
  | append_singleton xs x ih =>
    rw [pushAll_append, smootherPush]
    obtain ⟨t, ht⟩ := ih
    have hconc : pushAll N xs ++ [x] <:+ xs ++ [x] :=
      ⟨t, by rw [← List.append_assoc, ht]⟩
    split_ifs with h1 h2
    · exact hconc
    · exact (List.tail_suffix _).trans hconc
    · exact hconc

/-! ### Structural lemmas about the decision step -/

lemma calc_samples_eq (cfg : AutoscalerConfig) (a : Autoscaler) (jobs now : ℤ) :
    (calculateDesiredInstances cfg a jobs now).2.samples
      = (smootherPush cfg.numSamples a.samples jobs).1 := by
  unfold calculateDesiredInstances
  split_ifs <;> rfl

lemma calc_preserves_state (cfg : AutoscalerConfig) (a : Autoscaler) (jobs now : ℤ) :
    (calculateDesiredInstances cfg a jobs now).2.instances = a.instances ∧
      (calculateDesiredInstances cfg a jobs now).2.lastScaleTime = a.lastScaleTime := by
  unfold calculateDesiredInstances
  split_ifs <;> exact ⟨rfl, rfl⟩

lemma getLast?_tail_concat (w : List ℤ) (x : ℤ) (h : w ≠ []) :
    ((w ++ [x]).tail).getLast? = some x := by
  cases w with
  | nil => exact absurd rfl h
  | cons y ys => simp

/-! ### Claim theorems -/

/-- C4: under `numSamples ≥ 1`, after any sequence of pushes into the
smoother starting from the empty window, the window holds the most recent
`min(pushes, numSamples)` samples (a suffix of the pushed sequence, so the
oldest entries are the ones evicted), never exceeds `numSamples` entries,
and the next push reports ready exactly when it is the `numSamples`-th push
or later. -/
theorem smoother_window_invariant (N x : ℤ) (xs : List ℤ) (hN : 1 ≤ N) :
    ((pushAll N xs).length : ℤ) = min (xs.length : ℤ) N ∧
      pushAll N xs <:+ xs ∧
      ((smootherPush N (pushAll N xs) x).2 = true ↔ N ≤ (xs.length : ℤ) + 1) := by
  refine ⟨pushAll_length N hN xs, pushAll_suffix N xs, ?_⟩
  have hl := pushAll_length N hN xs
  rw [smootherPush]
  split_ifs with h1 h2
  · simp only [List.length_append, List.length_cons, List.length_nil] at h1
    push_cast at h1
    simp only [Bool.false_eq_true, false_iff]
    omega
  · simp only [List.length_append, List.length_cons, List.length_nil] at h2
    push_cast at h2
    simp only [true_iff]
    omega
  · simp only [List.length_append, List.length_cons, List.length_nil] at h1
    push_cast at h1
    simp only [true_iff]
    omega

/-- Witness for C4: pushing `[5, 6, 7]` through a window of size 2. -/
theorem smoother_window_invariant_witness :
    ((pushAll 2 [5, 6, 7]).length : ℤ) = min ((3 : ℕ) : ℤ) 2 ∧
      pushAll 2 [5, 6, 7] <:+ [5, 6, 7] ∧
      ((smootherPush 2 (pushAll 2 [5, 6, 7]) 9).2 = true ↔ (2:ℤ) ≤ ((3 : ℕ) : ℤ) + 1) :=
  smoother_window_invariant 2 9 [5, 6, 7] (by decide)

/-- C3: a tick whose outcome is no change (the loop received back the
current instance count, whether because the window was not full, the
desired count equalled the current one, or hysteresis suppressed the
decision) leaves both `instances` and `lastScaleTime` untouched; hence
`lastScaleTime` advances only on a tick that emits a decision. -/
theorem no_change_tick_frame (cfg : AutoscalerConfig) (a : Autoscaler)
    (jobs now nowAfter : ℤ)
    (h : (loopTick cfg a jobs now nowAfter).2 = none) :
    (loopTick cfg a jobs now nowAfter).1.instances = a.instances ∧
      (loopTick cfg a jobs now nowAfter).1.lastScaleTime = a.lastScaleTime := by
  unfold loopTick at h ⊢
  split_ifs at h ⊢ with h1
  all_goals exact calc_preserves_state cfg a jobs now

/-- Witness for C3: a tick with a still-filling window emits nothing and
changes neither `instances` nor `lastScaleTime`. -/
theorem no_change_tick_frame_witness :
    (loopTick ⟨2, 50, 1, 1, 2, 60, 600⟩ ⟨2, 7, []⟩ 5 30 30).1.instances = 2 ∧
      (loopTick ⟨2, 50, 1, 1, 2, 60, 600⟩ ⟨2, 7, []⟩ 5 30 30).1.lastScaleTime = 7 :=
  no_change_tick_frame ⟨2, 50, 1, 1, 2, 60, 600⟩ ⟨2, 7, []⟩ 5 30 30 (by decide)

/-- C5: on a tick where the window is still shorter than `numSamples` after
appending the new sample, the decision step returns exactly the current
instance count; consequently the loop emits nothing and neither
`instances` nor `lastScaleTime` changes. -/
theorem not_ready_returns_current (cfg : AutoscalerConfig) (a : Autoscaler)
    (jobs now nowAfter : ℤ)
    (h : (a.samples.length : ℤ) + 1 < cfg.numSamples) :
    (calculateDesiredInstances cfg a jobs now).1 = a.instances ∧
      (loopTick cfg a jobs now nowAfter).2 = none ∧
      (loopTick cfg a jobs now nowAfter).1.instances = a.instances ∧
      (loopTick cfg a jobs now nowAfter).1.lastScaleTime = a.lastScaleTime := by
  have hp : (smootherPush cfg.numSamples a.samples jobs).2 = false := by
    rw [smootherPush, if_pos]
    simp only [List.length_append, List.length_cons, List.length_nil]
    push_cast
    omega
  have hc : (calculateDesiredInstances cfg a jobs now).1 = a.instances := by
    unfold calculateDesiredInstances
    rw [if_pos hp]
  have hl : loopTick cfg a jobs now nowAfter
      = ((calculateDesiredInstances cfg a jobs now).2, none) := by
    unfold loopTick
    rw [if_neg]
    intro hcontra
    exact hcontra hc
  refine ⟨hc, by rw [hl], ?_, ?_⟩
  · rw [hl]
    exact (calc_preserves_state cfg a jobs now).1
  · rw [hl]
    exact (calc_preserves_state cfg a jobs now).2

/-- Witness for C5: with a window of size 3 and no samples yet, the tick
returns the current count and changes nothing. -/
theorem not_ready_returns_current_witness :
    (calculateDesiredInstances ⟨2, 50, 1, 1, 3, 60, 600⟩ ⟨4, 9, []⟩ 11 80).1 = 4 ∧
      (loopTick ⟨2, 50, 1, 1, 3, 60, 600⟩ ⟨4, 9, []⟩ 11 80 80).2 = none ∧
      (loopTick ⟨2, 50, 1, 1, 3, 60, 600⟩ ⟨4, 9, []⟩ 11 80 80).1.instances = 4 ∧
      (loopTick ⟨2, 50, 1, 1, 3, 60, 600⟩ ⟨4, 9, []⟩ 11 80 80).1.lastScaleTime = 9 :=
  not_ready_returns_current ⟨2, 50, 1, 1, 3, 60, 600⟩ ⟨4, 9, []⟩ 11 80 80 (by decide)

/-- C10: every invocation of the decision step appends the new sample to the
window unconditionally — the resulting window is the appended window,
possibly with its oldest entry evicted; its most recent entry is always the
new sample; and the window contents are independent of the tick's decision
outcome (they do not depend on `now`). -/
theorem tick_appends_sample (cfg : AutoscalerConfig) (a : Autoscaler)
    (jobs now now2 : ℤ) (hN : 1 ≤ cfg.numSamples) :
    ((calculateDesiredInstances cfg a jobs now).2.samples = a.samples ++ [jobs] ∨
      (calculateDesiredInstances cfg a jobs now).2.samples = (a.samples ++ [jobs]).tail) ∧
      (calculateDesiredInstances cfg a jobs now).2.samples.getLast? = some jobs ∧
      (calculateDesiredInstances cfg a jobs now).2.samples
        = (calculateDesiredInstances cfg a jobs now2).2.samples := by
  have hs := calc_samples_eq cfg a jobs now
  have hs2 := calc_samples_eq cfg a jobs now2
  rw [hs, hs2, smootherPush]
  split_ifs with h1 h2
  · exact ⟨Or.inl rfl, List.getLast?_concat _, rfl⟩
  · have hne : a.samples ≠ [] := by
      intro hnil
      rw [hnil] at h2
      simp at h2
      omega
    exact ⟨Or.inr rfl, getLast?_tail_concat a.samples jobs hne, rfl⟩
  · exact ⟨Or.inl rfl, List.getLast?_concat _, rfl⟩

/-- Witness for C10 on a full window: the oldest sample is evicted and the
new sample is the most recent entry, independent of the decision times. -/
theorem tick_appends_sample_witness :
    ((calculateDesiredInstances ⟨2, 50, 1, 1, 2, 60, 600⟩ ⟨2, 0, [3, 4]⟩ 8 10).2.samples
          = [3, 4] ++ [8] ∨
      (calculateDesiredInstances ⟨2, 50, 1, 1, 2, 60, 600⟩ ⟨2, 0, [3, 4]⟩ 8 10).2.samples
          = ([3, 4] ++ [8]).tail) ∧
      (calculateDesiredInstances ⟨2, 50, 1, 1, 2, 60, 600⟩
          ⟨2, 0, [3, 4]⟩ 8 10).2.samples.getLast? = some 8 ∧
      (calculateDesiredInstances ⟨2, 50, 1, 1, 2, 60, 600⟩ ⟨2, 0, [3, 4]⟩ 8 10).2.samples
        = (calculateDesiredInstances ⟨2, 50, 1, 1, 2, 60, 600⟩
            ⟨2, 0, [3, 4]⟩ 8 999).2.samples :=
  tick_appends_sample ⟨2, 50, 1, 1, 2, 60, 600⟩ ⟨2, 0, [3, 4]⟩ 8 10 999 (by decide)

/-- C1 (amended): on a tick with a full window whose desired count differs
from the current count, the decision step emits the desired count if and
only if the hysteresis comparison holds STRICTLY: `now > lastScaleTime +
scaleUpDelay` for scale-up, `now > lastScaleTime + scaleDownDelay` for
scale-down (`time.Time.After` is strict); at the exact boundary
`now = lastScaleTime + delay` no decision is emitted. -/
theorem decision_emission_gate (cfg : AutoscalerConfig) (a : Autoscaler) (jobs now : ℤ)
    (hready : (smootherPush cfg.numSamples a.samples jobs).2 = true)
    (hne : desiredInstances cfg (smootherPush cfg.numSamples a.samples jobs).1
        ≠ a.instances) :
    ((calculateDesiredInstances cfg a jobs now).1
        = desiredInstances cfg (smootherPush cfg.numSamples a.samples jobs).1) ↔
      ((a.instances < desiredInstances cfg (smootherPush cfg.numSamples a.samples jobs).1 ∧
          a.lastScaleTime + cfg.scaleUpDelay < now) ∨
        (desiredInstances cfg (smootherPush cfg.numSamples a.samples jobs).1 < a.instances ∧
          a.lastScaleTime + cfg.scaleDownDelay < now)) := by
  unfold calculateDesiredInstances
  rw [if_neg (by rw [hready]; simp)]
  split_ifs with h1 h2 <;> dsimp only <;> omega

/-- Helper evaluation: the desired count for the singleton window `[5]`
under `min = 1, max = 50, workersPerInstance = 1`. -/
lemma desired_single_five :
    desiredInstances ⟨1, 50, 1, 1, 1, 60, 600⟩ [5] = 5 := by
  have h5 : rawDesired ⟨1, 50, 1, 1, 1, 60, 600⟩ [5] = 5 := by
    rw [rawDesired_eq_ediv _ _ (by decide)]
    decide
  unfold desiredInstances
  rw [h5]
  decide

/-- C1 counterexample: with a full window, desired count 5 ≠ current count 1,
and `now` exactly at `lastScaleTime + scaleUpDelay` (`0 + 60 = 60`), the
decision step returns the current count `1` — no decision is emitted at the
boundary, contradicting the claim's `now ≥ lastScaleTime + scaleUpDelay`
condition. -/
theorem decision_boundary_counterexample :
    (smootherPush (1:ℤ) ([] : List ℤ) 5).2 = true ∧
      desiredInstances ⟨1, 50, 1, 1, 1, 60, 600⟩ ((smootherPush (1:ℤ) ([] : List ℤ) 5).1) = 5 ∧
      (0 : ℤ) + 60 = 60 ∧
      (calculateDesiredInstances ⟨1, 50, 1, 1, 1, 60, 600⟩ ⟨1, 0, []⟩ 5 60).1 = 1 := by
  have hsp : smootherPush (1:ℤ) ([] : List ℤ) 5 = ([5], true) := by decide
  refine ⟨by rw [hsp], by rw [hsp]; exact desired_single_five, by decide, ?_⟩
  unfold calculateDesiredInstances
  dsimp only
  rw [hsp]
  dsimp only
  rw [desired_single_five]
  norm_num

/-- Witness for C1 (amended) just past the boundary: at `now = 61` with
`lastScaleTime + scaleUpDelay = 60`, the decision (5 > 1) is emitted. -/
theorem decision_emission_gate_witness :
    ((calculateDesiredInstances ⟨1, 50, 1, 1, 1, 60, 600⟩ ⟨1, 0, []⟩ 5 61).1
        = desiredInstances ⟨1, 50, 1, 1, 1, 60, 600⟩ ((smootherPush (1:ℤ) ([] : List ℤ) 5).1)) ↔
      (((1:ℤ) < desiredInstances ⟨1, 50, 1, 1, 1, 60, 600⟩ ((smootherPush (1:ℤ) ([] : List ℤ) 5).1) ∧
          (0:ℤ) + 60 < 61) ∨
        (desiredInstances ⟨1, 50, 1, 1, 1, 60, 600⟩ ((smootherPush (1:ℤ) ([] : List ℤ) 5).1) < 1 ∧
          (0:ℤ) + 600 < 61)) :=
  decision_emission_gate ⟨1, 50, 1, 1, 1, 60, 600⟩ ⟨1, 0, []⟩ 5 61
    (by decide)
    (by
      have hsp : smootherPush (1:ℤ) ([] : List ℤ) 5 = ([5], true) := by decide
      rw [hsp]
      dsimp only
      rw [desired_single_five]
      decide)

/-- C2: under the config precondition `0 < minInstances ≤ maxInstances`, the
desired instance count computed by the decision engine — the clamp of
`ceil(average / workersPerInstance)` — lies within
`[minInstances, maxInstances]` for every window, whatever the raw average. -/
theorem desiredInstances_within_bounds (cfg : AutoscalerConfig) (w : List ℤ)
    (hmin : 0 < cfg.minInstances) (hle : cfg.minInstances ≤ cfg.maxInstances) :
    cfg.minInstances ≤ desiredInstances cfg w ∧
      desiredInstances cfg w ≤ cfg.maxInstances := by
  unfold desiredInstances
  split_ifs <;> omega

/-- Witness for C2 at a concrete configuration and window. -/
theorem desiredInstances_within_bounds_witness :
    (2:ℤ) ≤ desiredInstances ⟨2, 50, 1, 1, 1, 60, 600⟩ [80] ∧
      desiredInstances ⟨2, 50, 1, 1, 1, 60, 600⟩ [80] ≤ 50 :=
  desiredInstances_within_bounds ⟨2, 50, 1, 1, 1, 60, 600⟩ [80]
    (by decide) (by decide)

/-- C6: for every non-empty window of non-negative samples and every
`workersPerInstance ≥ 1`, the pre-clamp desired count is the ceiling of the
exact arithmetic mean divided by `workersPerInstance`: it equals the
`ℚ`-ceiling of `sum / (length * workersPerInstance)` and is characterised by
the exact-rational ceiling inequalities, with no truncation of the mean. -/
theorem rawDesired_exact_ceiling (cfg : AutoscalerConfig) (w : List ℤ)
    (hw : w ≠ []) (hnn : ∀ x ∈ w, 0 ≤ x) (hwpi : 1 ≤ cfg.workersPerInstance) :
    rawDesired cfg w
        = ⌈(w.sum : ℚ) / (((w.length : ℤ) * cfg.workersPerInstance : ℤ) : ℚ)⌉ ∧
      (w.length : ℤ) * cfg.workersPerInstance * (rawDesired cfg w - 1) < w.sum ∧
      w.sum ≤ (w.length : ℤ) * cfg.workersPerInstance * rawDesired cfg w := by
  have hlen : 0 < (w.length : ℤ) := by
    have := List.length_pos.mpr hw
    exact_mod_cast this
  have hb : 0 < (w.length : ℤ) * cfg.workersPerInstance :=
    mul_pos hlen (lt_of_lt_of_le one_pos hwpi)
  have hbq : (0 : ℚ) < (((w.length : ℤ) * cfg.workersPerInstance : ℤ) : ℚ) := by
    exact_mod_cast hb
  have h1 : rawDesired cfg w
      = ⌈(w.sum : ℚ) / (((w.length : ℤ) * cfg.workersPerInstance : ℤ) : ℚ)⌉ := by
    rw [rawDesired, average_div_eq]
  refine ⟨h1, ?_, ?_⟩
  · have h2 : (rawDesired cfg w - 1 : ℤ)
        < ⌈(w.sum : ℚ) / (((w.length : ℤ) * cfg.workersPerInstance : ℤ) : ℚ)⌉ := by
      rw [← h1]; omega
    have h3 := Int.lt_ceil.mp h2
    rw [lt_div_iff hbq] at h3
    have h4 : ((rawDesired cfg w - 1 : ℤ) : ℚ)
        * (((w.length : ℤ) * cfg.workersPerInstance : ℤ) : ℚ)
        < ((w.sum : ℤ) : ℚ) := by exact_mod_cast h3
    have h5 : (rawDesired cfg w - 1) * ((w.length : ℤ) * cfg.workersPerInstance)
        < w.sum := by exact_mod_cast h4
    linarith [h5]
  · have h2 : ⌈(w.sum : ℚ) / (((w.length : ℤ) * cfg.workersPerInstance : ℤ) : ℚ)⌉
        ≤ rawDesired cfg w := by rw [← h1]
    have h3 := Int.ceil_le.mp (le_of_eq h1.symm)
    rw [div_le_iff hbq] at h3
    have h4 : ((w.sum : ℤ) : ℚ) ≤ ((rawDesired cfg w : ℤ) : ℚ)
        * (((w.length : ℤ) * cfg.workersPerInstance : ℤ) : ℚ) := by exact_mod_cast h3
    have h5 : w.sum ≤ rawDesired cfg w * ((w.length : ℤ) * cfg.workersPerInstance) := by
      exact_mod_cast h4
    linarith [h5]

/-- Witness for C6 at the window `[4, 4, 4]` with two workers per instance. -/
theorem rawDesired_exact_ceiling_witness :
    rawDesired ⟨2, 50, 2, 1, 3, 60, 600⟩ [4, 4, 4]
        = ⌈(([4, 4, 4] : List ℤ).sum : ℚ)
            / (((([4, 4, 4] : List ℤ).length : ℤ) * 2 : ℤ) : ℚ)⌉ ∧
      (([4, 4, 4] : List ℤ).length : ℤ) * 2
          * (rawDesired ⟨2, 50, 2, 1, 3, 60, 600⟩ [4, 4, 4] - 1)
        < ([4, 4, 4] : List ℤ).sum ∧
      ([4, 4, 4] : List ℤ).sum
        ≤ (([4, 4, 4] : List ℤ).length : ℤ) * 2
            * rawDesired ⟨2, 50, 2, 1, 3, 60, 600⟩ [4, 4, 4] :=
  rawDesired_exact_ceiling ⟨2, 50, 2, 1, 3, 60, 600⟩ [4, 4, 4]
    (by decide) (by decide) (by decide)

lemma foldl_count_aux (g : String → Bool) (ws : List String) (n : ℤ) :
    ws.foldl (fun jobs w => if g w then jobs + 1 else jobs) n = n + (ws.countP g : ℤ) := by
  induction ws generalizing n with
  | nil => simp
  | cons w ws ih =>
    rw [List.foldl_cons, List.countP_cons]
    by_cases h : g w <;> simp [h, ih] <;> push_cast <;> ring

lemma foldl_add_aux (g : String → ℤ) (qs : List String) (n : ℤ) :
    qs.foldl (fun jobs q => jobs + g q) n = n + (qs.map g).sum := by
  induction qs generalizing n with
  | nil => simp
  | cons q qs ih =>
    rw [List.foldl_cons, List.map_cons, List.sum_cons, ih]
    ring

/-- C7: the per-tick sample is `active + pending`, where the active count is
exactly the number of registered workers whose lease key is present, the
pending count is the sum of the retrievable queue lengths (a failed
sub-query contributing zero), and the sample is never negative. The
embedding is a total function, mirroring that the Go sampler logs failures
but never raises to the caller. -/
theorem sampleJobs_spec (r : RedisState) :
    sampleJobs r = countActiveJobs r + countPendingJobs r ∧
      countActiveJobs r = (activeWorkersSpec r : ℤ) ∧
      countPendingJobs r = pendingJobsSpec r ∧
      0 ≤ sampleJobs r := by
  have ha : countActiveJobs r = (activeWorkersSpec r : ℤ) := by
    rw [countActiveJobs, activeWorkersSpec, foldl_count_aux]
    ring
  have hp : countPendingJobs r = pendingJobsSpec r := by
    rw [countPendingJobs, pendingJobsSpec, foldl_add_aux]
    ring
  refine ⟨rfl, ha, hp, ?_⟩
  rw [sampleJobs, ha, hp]
  have h1 : (0 : ℤ) ≤ (activeWorkersSpec r : ℤ) := Int.natCast_nonneg _
  have h2 : (0 : ℤ) ≤ pendingJobsSpec r := by
    rw [pendingJobsSpec]
    apply List.sum_nonneg
    intro x hx
    obtain ⟨q, _, rfl⟩ := List.mem_map.mp hx
    exact Int.natCast_nonneg _
  omega

/-- C8: if the startup fleet-size read fails — a transport error (`none`) or
a non-OK HTTP status — `getInstanceCount` returns exactly `minInstances`. -/
theorem getInstanceCount_failure_fallback (cfg : AutoscalerConfig)
    (callResult : Option RenderResponse)
    (h : ∀ resp, callResult = some resp → resp.status ≠ httpStatusOK) :
    getInstanceCount cfg callResult = cfg.minInstances := by
  match callResult with
  | none => rfl
  | some resp =>
    rw [getInstanceCount]
    rw [if_pos (h resp rfl)]

/-- Witness for C8 at a concrete 500-status response. -/
theorem getInstanceCount_failure_fallback_witness :
    getInstanceCount ⟨2, 50, 1, 1, 1, 60, 600⟩ (some ⟨500, some 7⟩) = 2 :=
  getInstanceCount_failure_fallback ⟨2, 50, 1, 1, 1, 60, 600⟩ (some ⟨500, some 7⟩)
    (by intro resp hr; cases hr; decide)

/-- C9: even on an OK-status response, a missing, zero or negative
`numInstances` field makes `getInstanceCount` fall back to `minInstances`;
and under the config invariant `minInstances ≥ 1` the function never
returns a non-positive value, whatever the call result. -/
theorem getInstanceCount_positive (cfg : AutoscalerConfig) (resp : RenderResponse)
    (callResult : Option RenderResponse)
    (hmin : 1 ≤ cfg.minInstances) (hr : resp.numInstances.getD 0 ≤ 0) :
    getInstanceCount cfg (some resp) = cfg.minInstances ∧
      1 ≤ getInstanceCount cfg callResult := by
  constructor
  · rw [getInstanceCount]
    split_ifs with h1 h2
    · rfl
    · omega
    · rfl
  · match callResult with
    | none => exact hmin
    | some r2 =>
      rw [getInstanceCount]
      split_ifs with h1 h2
      · exact hmin
      · omega
      · exact hmin

/-- Witness for C9: an OK response with the `numInstances` field missing
falls back to `minInstances = 2`, and a successful read of 7 is positive. -/
theorem getInstanceCount_positive_witness :
    getInstanceCount ⟨2, 50, 1, 1, 1, 60, 600⟩ (some ⟨200, none⟩) = 2 ∧
      1 ≤ getInstanceCount ⟨2, 50, 1, 1, 1, 60, 600⟩ (some ⟨200, some 7⟩) :=
  getInstanceCount_positive ⟨2, 50, 1, 1, 1, 60, 600⟩ ⟨200, none⟩
    (some ⟨200, some 7⟩) (by decide) (by decide)

end ResqueAutoscaler
